import Mathlib

/-!
Verification of the record-assembly, missingness-encoding, schema-coercion,
probability-categorisation, geocoding and geospatial-risk pipeline of
`diag_borreliosis.py`, shallowly embedded in Lean.

The single-row pandas `DataFrame` is embedded as a column-name list together
with a total valuation from column names to cell values; a cell value is either
the missing marker (`pd.NA` / `NaN`), a finite number (rationals stand in for
Python floats) or a string token.  Each Python function of the pipeline is
translated to a Lean definition of the same name; network responses, the risk
raster and the coordinate reprojection are passed in explicitly as data so that
the control flow of the Python functions becomes a pure function of them.
-/

namespace Diag

/-- A cell of the one-row Record: the missing marker (`pd.NA`/`NaN`), a finite
number, or a string token. -/
inductive Val where
  | na : Val
  | num : ℚ → Val
  | str : String → Val
deriving DecidableEq

/-- One-row `DataFrame`: the column index plus the row, the latter as a total
valuation from column names to cells (only columns listed in `cols` are ever
read by the pipeline). -/
structure Rec where
  cols : List String
  val : String → Val

/-- `X.at[0, c] = v` on an existing column `c`. -/
def setCell (X : Rec) (c : String) (v : Val) : Rec :=
  ⟨X.cols, Function.update X.val c v⟩

/-! ### Python string primitives

The source manipulates Python strings with `endswith`, `replace`, `strip`,
`lower`, slicing and substring containment.  These are embedded as structural
functions on the character list of the Lean string, so that every concrete
instance evaluates. -/

/-- Python `str.endswith(pat)`. -/
def strEndsWith (s pat : String) : Bool :=
  pat.data.isSuffixOf s.data

/-- Python `str.strip()`: remove leading and trailing whitespace. -/
def pyStrip (s : String) : String :=
  ⟨((s.data.dropWhile Char.isWhitespace).reverse.dropWhile Char.isWhitespace).reverse⟩

/-- Python `str.lower()` (ASCII case folding; every string this model compares
case-insensitively is matched against unaccented lowercase tokens, and
lowercase accented letters are fixed points on both sides). -/
def pyLower (s : String) : String :=
  ⟨s.data.map Char.toLower⟩

/-- Python `str.replace(pat, rep)` over the character list: left-to-right,
non-overlapping, continuing after each replacement; `fuel` bounds the
recursion by the length of the list. -/
def replaceFuel (pat rep : List Char) : ℕ → List Char → List Char
  | _, [] => []
  | 0, l => l
  | n + 1, c :: rest =>
      if pat.isPrefixOf (c :: rest) && !pat.isEmpty then
        rep ++ replaceFuel pat rep n ((c :: rest).drop pat.length)
      else c :: replaceFuel pat rep n rest

/-- Python `str.replace(pat, rep)` (all occurrences). -/
def pyReplace (s pat rep : String) : String :=
  ⟨replaceFuel pat.data rep.data s.data.length s.data⟩

/-- Python slicing `s[:n]`. -/
def pyTake (s : String) (n : ℕ) : String :=
  ⟨s.data.take n⟩

/-- Python substring containment `pat in s`, on character lists. -/
def listContainsSub (pat : List Char) : List Char → Bool
  | [] => pat.isEmpty
  | c :: rest => pat.isPrefixOf (c :: rest) || listContainsSub pat rest

/-- Python substring containment `pat in s`. -/
def strContainsSub (s pat : String) : Bool :=
  listContainsSub pat.data s.data

/-- `build_template` from the source: a fresh record over the schema's feature
list with every cell `pd.NA`. -/
def build_template (feature_cols : List String) : Rec :=
  ⟨feature_cols, fun _ => Val.na⟩

/-- Loop body of `apply_inputs_to_template`: write the answer when its key is
a column, ignore it otherwise. -/
def applyStep (A : Rec) (kv : String × Val) : Rec :=
  if kv.1 ∈ A.cols then setCell A kv.1 kv.2 else A

/-- `apply_inputs_to_template` from the source: overlay the supplied
`{column: answer}` pairs onto the record, writing only keys that are columns. -/
def apply_inputs_to_template (X : Rec) (inputs : List (String × Val)) : Rec :=
  inputs.foldl applyStep X

/-- Body of the first loop of `fill_missing_code_like_R`:
`X.at[0, mc] = 0` for a missingness-indicator column. -/
def fillZeroStep (A : Rec) (mc : String) : Rec :=
  setCell A mc (Val.num 0)

/-- Body of the second loop of `fill_missing_code_like_R`: recover the base
feature name (`mc.replace("_missing_code", "")`), skip when it is not a column,
and when its cell is missing set the indicator to `2` for analysis features and
`1` otherwise. -/
def fillTagStep (analysis_cols_set : List String) (A : Rec) (mc : String) : Rec :=
  if (pyReplace mc "_missing_code" "") ∈ A.cols then
    (if A.val (pyReplace mc "_missing_code" "") = Val.na then
      setCell A mc (Val.num (if (pyReplace mc "_missing_code" "") ∈ analysis_cols_set then 2 else 1))
    else A)
  else A

/-- `fill_missing_code_like_R` from the source: collect the columns ending in
`"_missing_code"`, return the record unchanged when there are none, otherwise
set every indicator to `0` and then re-tag the indicators whose base feature is
present but missing. -/
def fill_missing_code_like_R (X : Rec) (analysis_cols_set : List String) : Rec :=
  if X.cols.filter (fun c => strEndsWith c "_missing_code") = [] then X
  else
    (X.cols.filter (fun c => strEndsWith c "_missing_code")).foldl
      (fillTagStep analysis_cols_set)
      ((X.cols.filter (fun c => strEndsWith c "_missing_code")).foldl fillZeroStep X)

/-- Affirmative tokens recognised by `yn_to_num_if_needed`. -/
def yesTokens : List String := ["oui", "yes", "y", "true", "vrai", "1"]

/-- Negative tokens recognised by `yn_to_num_if_needed`. -/
def noTokens : List String := ["non", "no", "n", "false", "faux", "0"]

/-- `yn_to_num_if_needed` from the source: missing values pass through, the
value passes through untouched when the column is not numeric, numbers are kept
as numbers, and strings are stripped, lowercased and matched against the
affirmative/negative token lists; unmatched strings pass through unchanged. -/
def yn_to_num_if_needed (val : Val) (col_is_numeric : Bool) : Val :=
  match val with
  | Val.na => Val.na
  | v =>
    if col_is_numeric then
      match v with
      | Val.num q => Val.num q
      | Val.str s =>
          if pyLower (pyStrip s) ∈ yesTokens then Val.num 1
          else if pyLower (pyStrip s) ∈ noTokens then Val.num 0
          else Val.str s
      | Val.na => Val.na
    else v

/-- Digits of a numeral, most significant first, to a natural number. -/
def digitsToNat (l : List Char) : ℕ :=
  l.foldl (fun n c => 10 * n + (c.toNat - 48)) 0

/-- A non-empty all-digit character list. -/
def isDigits (l : List Char) : Bool :=
  !l.isEmpty && l.all (fun c => c.isDigit)

/-- Unsigned decimal mantissa: `"12"`, `"12.5"`, `"12."` or `".5"`. -/
def parseMantissa (l : List Char) : Option ℚ :=
  match l.splitOn '.' with
  | [a] => if isDigits a then some (digitsToNat a) else none
  | [a, b] =>
      if (a.all (fun c => c.isDigit)) && (b.all (fun c => c.isDigit))
          && !(a.isEmpty && b.isEmpty) then
        some ((digitsToNat a : ℚ) + (digitsToNat b : ℚ) / ((10 : ℚ) ^ b.length))
      else none
  | _ => none

/-- Optionally signed decimal mantissa. -/
def parseSignedMantissa (l : List Char) : Option ℚ :=
  match l with
  | '+' :: rest => parseMantissa rest
  | '-' :: rest => (parseMantissa rest).map (fun q => -q)
  | _ => parseMantissa l

/-- Optionally signed decimal integer (for an exponent part). -/
def parseIntChars (l : List Char) : Option ℤ :=
  match l with
  | '+' :: rest => if isDigits rest then some ((digitsToNat rest : ℤ)) else none
  | '-' :: rest => if isDigits rest then some (-(digitsToNat rest : ℤ)) else none
  | _ => if isDigits l then some ((digitsToNat l : ℤ)) else none

/-- The numeric-text parser behind `pd.to_numeric(·, errors="coerce")`:
surrounding whitespace is stripped, an optional sign, decimal point and
exponent are accepted, anything else fails (rationals stand in for floats, so
non-finite spellings are out of the model). -/
def parseNumeric (s : String) : Option ℚ :=
  match ((pyLower (pyStrip s)).data).splitOn 'e' with
  | [m] => parseSignedMantissa m
  | [m, e] =>
      match parseSignedMantissa m, parseIntChars e with
      | some q, some z => some (q * (10 : ℚ) ^ z)
      | _, _ => none
  | _ => none

/-- `pd.to_numeric(·, errors="coerce")` on a cell: missing stays missing,
numbers stay numbers, a string cell is parsed and degrades to the missing
marker when unparsable. -/
def to_numeric_coerce (v : Val) : Val :=
  match v with
  | Val.na => Val.na
  | Val.num q => Val.num q
  | Val.str s =>
      match parseNumeric s with
      | some q => Val.num q
      | none => Val.na

/-- The numeric-column cell transform of `coerce_like_train_python`:
`yn_to_num_if_needed(·, col_is_numeric=True)` followed by
`pd.to_numeric(·, errors="coerce")`. -/
def normNum (v : Val) : Val :=
  to_numeric_coerce (yn_to_num_if_needed v true)

/-- Rendering of a number as a string (`astype(str)` on a numeric cell). -/
def valStr (q : ℚ) : String :=
  toString q

/-- The categorical-column cell transform of `coerce_like_train_python`:
`astype("string")`, `fillna("__MISSING__")`, `astype(str)` — missing cells
become the sentinel token, every other cell becomes its string rendering. -/
def coerceCatVal (v : Val) : Val :=
  match v with
  | Val.na => Val.str "__MISSING__"
  | Val.str s => Val.str s
  | Val.num q => Val.str (valStr q)

/-- One iteration of a column loop of `coerce_like_train_python`: skip columns
absent from the record, otherwise rewrite the cell with `f`. -/
def coerceStep (f : Val → Val) (A : Rec) (c : String) : Rec :=
  if c ∈ A.cols then setCell A c (f (A.val c)) else A

/-- `num_cols` of `coerce_like_train_python`: the schema features that are not
categorical. -/
def numColsOf (feature_cols cat_cols : List String) : List String :=
  feature_cols.filter (fun c => !(cat_cols.contains c))

/-- `coerce_like_train_python` from the source: force every categorical column
to a string token (missing becomes `"__MISSING__"`), then normalise and
numeric-coerce every non-categorical schema column.  The source's
`factor_levels` alignment block is a no-op (it only reads the levels), so the
argument is unused here exactly as there. -/
def coerce_like_train_python (X : Rec) (feature_cols cat_cols : List String)
    (factor_levels : List (String × List String)) : Rec :=
  (numColsOf feature_cols cat_cols).foldl (coerceStep normNum)
    (cat_cols.foldl (coerceStep coerceCatVal) X)

/-- `cat_from_p_like_R` from the source: fixed inclusive-low thresholds from a
probability to the human-facing category. -/
def cat_from_p_like_R (p : ℚ) : String :=
  if p < 0.25 then "Pas de Lyme ou informations insuffisantes"
  else if p < 0.50 then "Lyme possible"
  else if p < 0.75 then "Lyme probable"
  else "Lyme sûr"

/-- A parsed location candidate of a geocoding provider response (BAN feature
coordinates with their label, or a Nominatim result row). -/
structure Cand where
  lat : ℚ
  lon : ℚ
  name : String
deriving DecidableEq

/-- The outcome of one HTTP GET to a geocoding provider: a response with its
status code, raw body text and parsed candidate list, or a raised network
exception (connection error / timeout). -/
inductive HttpResp where
  | http : ℕ → String → List Cand → HttpResp
  | exn : HttpResp
deriving DecidableEq

/-- What `geocode_address` returns: the found-coordinates dictionary, the
`__error__` dictionary (provider error), or Python `None`. -/
inductive GeoResult where
  | found : ℚ → ℚ → String → String → GeoResult
  | providerError : ℕ → String → String → GeoResult
  | none_ : GeoResult
deriving DecidableEq

/-- `geocode_address` from the source, as a pure function of the two provider
responses.  Empty/blank address returns `None`.  BAN is consulted first: only a
status-200 response with a non-empty feature list produces a result; any other
BAN outcome (non-200 status, empty feature list, raised exception) silently
falls through to Nominatim.  For Nominatim (`nominatimResult` below): a raised
exception returns `None`, a non-200 status returns the `__error__` dictionary
carrying the status and the first 300 characters of the body, an empty result
list returns `None`, and a match returns the found dictionary. -/
def nominatimResult (nominatim : HttpResp) : GeoResult :=
  match nominatim with
  | HttpResp.exn => GeoResult.none_
  | HttpResp.http s body cs =>
      if s = 200 then
        match cs with
        | [] => GeoResult.none_
        | c :: _ => GeoResult.found c.lat c.lon c.name "Nominatim"
      else GeoResult.providerError s (pyTake body 300) "Nominatim"

def geocode_address (ban nominatim : HttpResp) (address : String) : GeoResult :=
  if pyStrip address = "" then GeoResult.none_
  else
    match ban with
    | HttpResp.exn => nominatimResult nominatim
    | HttpResp.http s _ cs =>
        if s = 200 then
          match cs with
          | [] => nominatimResult nominatim
          | c :: _ => GeoResult.found c.lat c.lon c.name "BAN"
        else nominatimResult nominatim

/-- First element of `levels` whose stripped lowercase form contains the
keyword (the `pick` helper of `_best_match_risk_label`). -/
def pickLevel (levels : List String) (kw : String) : Option String :=
  levels.find? (fun lv => strContainsSub (pyLower (pyStrip lv)) kw)

/-- `_best_match_risk_label` from the source: with no registry levels the raw
label passes through; otherwise try an exact case-insensitive match, then the
keyword buckets (`faible`/`meconnu`/`méconnu`, `inter`, `fort`), falling back
to the raw label. -/
def best_match_risk_label (target : String) (levels : List String) : String :=
  if levels = [] then target
  else
    let t := pyLower (pyStrip target)
    match levels.find? (fun lv => pyLower (pyStrip lv) == t) with
    | some lv => lv
    | none =>
        if strContainsSub t "faible" || strContainsSub t "meconnu"
            || strContainsSub t "méconnu" then
          (((pickLevel levels "faible").or (pickLevel levels "meconnu")).or
            (pickLevel levels "méconnu")).getD target
        else if strContainsSub t "inter" then (pickLevel levels "inter").getD target
        else if strContainsSub t "fort" then (pickLevel levels "fort").getD target
        else target

/-- The loaded risk raster as `risk_class_from_geo` uses it: bounding extent in
the raster's reference system, pixel-grid size, the affine row/column transform
(`rasterio.transform.rowcol`) and the sampled band value at a pixel. -/
structure Raster where
  left : ℚ
  right : ℚ
  bottom : ℚ
  top : ℚ
  height : ℕ
  width : ℕ
  rowcolF : ℚ → ℚ → ℤ × ℤ
  pix : ℕ → ℕ → ℤ

/-- Association-list lookup with a default (Python `dict.get(k, d)`). -/
def lookupListD (fl : List (String × List String)) (k : String) : List String :=
  ((fl.find? (fun p => p.1 == k)).map (fun p => p.2)).getD []

/-- The `raw_label` computation inside `risk_class_from_geo`: `"faible ou
méconnu"` whenever the reprojected point `(x, y)` is outside the bounding
extent, the computed row/column is outside the pixel grid, or the sampled value
is neither 2 nor 3; value 2 is `"intermédiaire"` and 3 is `"fort"`. -/
def rawRiskLabel (ds : Raster) (x y : ℚ) : String :=
  if x < ds.left ∨ x > ds.right ∨ y < ds.bottom ∨ y > ds.top then
    "faible ou méconnu"
  else if (ds.rowcolF x y).1 < 0 ∨ (ds.rowcolF x y).2 < 0
      ∨ (ds.rowcolF x y).1 ≥ (ds.height : ℤ) ∨ (ds.rowcolF x y).2 ≥ (ds.width : ℤ) then
    "faible ou méconnu"
  else if ds.pix (ds.rowcolF x y).1.toNat (ds.rowcolF x y).2.toNat = 2 then
    "intermédiaire"
  else if ds.pix (ds.rowcolF x y).1.toNat (ds.rowcolF x y).2.toNat = 3 then
    "fort"
  else "faible ou méconnu"

/-- `risk_class_from_geo` from the source, as a pure function.  `load = none`
models every path into the `except` clause or a raster without a CRS (download
failure, open failure), which return Python `None`.  Otherwise the WGS84 point
is reprojected by `proj` (the pyproj transformer, an input here), the raw label
is computed by `rawRiskLabel`, and it is reconciled against the registry levels
of `"Classe_de_risque"` when those are non-empty. -/
def risk_class_from_geo (load : Option Raster) (proj : ℚ → ℚ → ℚ × ℚ)
    (lat_wgs84 lon_wgs84 : ℚ) (factor_levels : List (String × List String)) :
    Option String :=
  match load with
  | none => none
  | some ds =>
      some (if lookupListD factor_levels "Classe_de_risque" = [] then
              rawRiskLabel ds (proj lon_wgs84 lat_wgs84).1 (proj lon_wgs84 lat_wgs84).2
            else
              best_match_risk_label
                (rawRiskLabel ds (proj lon_wgs84 lat_wgs84).1 (proj lon_wgs84 lat_wgs84).2)
                (lookupListD factor_levels "Classe_de_risque"))

/-- The label `risk_class_from_geo` produces on every out-of-coverage path: the
raw lowest-risk label `"faible ou méconnu"`, reconciled against the registry
levels for `"Classe_de_risque"` when those are non-empty. -/
def riskFallbackLabel (factor_levels : List (String × List String)) : String :=
  if lookupListD factor_levels "Classe_de_risque" = [] then "faible ou méconnu"
  else best_match_risk_label "faible ou méconnu" (lookupListD factor_levels "Classe_de_risque")

/-- Association-list lookup on the inputs dictionary. -/
def lookupKV (d : List (String × Val)) (k : String) : Option Val :=
  ((d.find? (fun p => p.1 == k)).map (fun p => p.2))

/-- The `ALIASES` dictionary lookup. -/
def aliasLookup (al : List (String × String)) (k : String) : Option String :=
  ((al.find? (fun p => p.1 == k)).map (fun p => p.2))

/-- Python dict assignment `d[k] = v`: overwrite in place when the key exists,
append otherwise. -/
def dictSet (d : List (String × Val)) (k : String) (v : Val) : List (String × Val) :=
  if d.any (fun p => p.1 == k) then
    d.map (fun p => if p.1 == k then (k, v) else p)
  else d ++ [(k, v)]

/-- `put` from the source: write the answer under the column's own name when it
is a schema feature, under the alias target when the name is an alias whose
target is a schema feature, and drop it otherwise. -/
def put (feature_cols : List String) (aliases : List (String × String))
    (inputs : List (String × Val)) (col : String) (v : Val) : List (String × Val) :=
  if col ∈ feature_cols then dictSet inputs col v
  else
    match aliasLookup aliases col with
    | some tgt => if tgt ∈ feature_cols then dictSet inputs tgt v else inputs
    | none => inputs

/-- The schema column an input key lands on, if any: itself when it is a schema
feature, its alias target when that is one, nothing otherwise. -/
def resolveKey (feature_cols : List String) (aliases : List (String × String))
    (k : String) : Option String :=
  if k ∈ feature_cols then some k
  else
    match aliasLookup aliases k with
    | some tgt => if tgt ∈ feature_cols then some tgt else none
    | none => none

/-- The inputs dictionary built by the UI: one `put` per answered field, in
order, starting from the empty dict. -/
def buildInputs (feature_cols : List String) (aliases : List (String × String))
    (entries : List (String × Val)) : List (String × Val) :=
  entries.foldl (fun d kv => put feature_cols aliases d kv.1 kv.2) []

/-- The Feature Vector Builder: the all-missing template over the schema's
feature list, overlaid with the `put`-filtered answers. -/
def buildRecord (feature_cols : List String) (aliases : List (String × String))
    (entries : List (String × Val)) : Rec :=
  apply_inputs_to_template (build_template feature_cols)
    (buildInputs feature_cols aliases entries)

/-- The last supplied answer that lands on schema column `c` (later `put`s win,
exactly as later dict assignments win). -/
def lastHit (feature_cols : List String) (aliases : List (String × String))
    (entries : List (String × Val)) (c : String) : Option Val :=
  entries.foldl
    (fun acc kv => if resolveKey feature_cols aliases kv.1 = some c then some kv.2 else acc)
    none

/-! ### Record update lemmas -/

theorem setCell_cols (X : Rec) (c : String) (v : Val) : (setCell X c v).cols = X.cols :=
  rfl

theorem setCell_val_same (X : Rec) (c : String) (v : Val) : (setCell X c v).val c = v := by
  simp [setCell]

theorem setCell_val_ne (X : Rec) (c : String) (v : Val) (d : String) (h : d ≠ c) :
    (setCell X c v).val d = X.val d := by
  simp [setCell, Function.update_noteq h]

theorem coerceStep_cols (f : Val → Val) (A : Rec) (c : String) :
    (coerceStep f A c).cols = A.cols := by
  unfold coerceStep
  split <;> rfl

theorem coerceStep_val_ne (f : Val → Val) (A : Rec) (c d : String) (h : d ≠ c) :
    (coerceStep f A c).val d = A.val d := by
  unfold coerceStep
  split
  · exact setCell_val_ne A c _ d h
  · rfl

theorem coerceStep_val_same (f : Val → Val) (A : Rec) (c : String) (hc : c ∈ A.cols) :
    (coerceStep f A c).val c = f (A.val c) := by
  unfold coerceStep
  rw [if_pos hc, setCell_val_same]

theorem foldl_coerceStep_cols (f : Val → Val) (l : List String) (X : Rec) :
    (l.foldl (coerceStep f) X).cols = X.cols := by
  induction l generalizing X with
  | nil => rfl
  | cons a rest ih => rw [List.foldl_cons, ih, coerceStep_cols]

theorem foldl_coerceStep_val_not_mem (f : Val → Val) (l : List String) (X : Rec) (d : String)
    (hd : d ∉ l) : (l.foldl (coerceStep f) X).val d = X.val d := by
  induction l generalizing X with
  | nil => rfl
  | cons a rest ih =>
      rw [List.foldl_cons, ih _ (fun h => hd (List.mem_cons_of_mem a h)),
        coerceStep_val_ne f X a d (fun h => hd (h ▸ List.mem_cons_self a rest))]

theorem foldl_coerceStep_val_mem (f : Val → Val) (hf : ∀ v, f (f v) = f v)
    (l : List String) (X : Rec) (c : String) (hc : c ∈ l) (hcol : c ∈ X.cols) :
    (l.foldl (coerceStep f) X).val c = f (X.val c) := by
  induction l generalizing X with
  | nil => cases hc
  | cons a rest ih =>
      rw [List.foldl_cons]
      by_cases hm : c ∈ rest
      · rw [ih (coerceStep f X a) hm (by rw [coerceStep_cols]; exact hcol)]
        by_cases hac : c = a
        · subst hac
          rw [coerceStep_val_same f X c hcol, hf]
        · rw [coerceStep_val_ne f X a c hac]
      · have hca : c = a := by
          rcases List.mem_cons.mp hc with h | h
          · exact h
          · exact absurd h hm
        subst hca
        rw [foldl_coerceStep_val_not_mem f rest _ c hm, coerceStep_val_same f X c hcol]

theorem fillZeroStep_cols (A : Rec) (mc : String) : (fillZeroStep A mc).cols = A.cols :=
  rfl

theorem fillZeroStep_val_ne (A : Rec) (mc d : String) (h : d ≠ mc) :
    (fillZeroStep A mc).val d = A.val d :=
  setCell_val_ne A mc _ d h

theorem foldl_fillZeroStep_cols (l : List String) (X : Rec) :
    (l.foldl fillZeroStep X).cols = X.cols := by
  induction l generalizing X with
  | nil => rfl
  | cons a rest ih => rw [List.foldl_cons, ih, fillZeroStep_cols]

theorem foldl_fillZeroStep_val_not_mem (l : List String) (X : Rec) (d : String)
    (hd : d ∉ l) : (l.foldl fillZeroStep X).val d = X.val d := by
  induction l generalizing X with
  | nil => rfl
  | cons a rest ih =>
      rw [List.foldl_cons, ih _ (fun h => hd (List.mem_cons_of_mem a h)),
        fillZeroStep_val_ne X a d (fun h => hd (h ▸ List.mem_cons_self a rest))]

theorem foldl_fillZeroStep_val_mem (l : List String) (X : Rec) (c : String) (hc : c ∈ l) :
    (l.foldl fillZeroStep X).val c = Val.num 0 := by
  induction l generalizing X with
  | nil => cases hc
  | cons a rest ih =>
      rw [List.foldl_cons]
      by_cases hm : c ∈ rest
      · exact ih (fillZeroStep X a) hm
      · have hca : c = a := by
          rcases List.mem_cons.mp hc with h | h
          · exact h
          · exact absurd h hm
        subst hca
        rw [foldl_fillZeroStep_val_not_mem rest _ c hm]
        exact setCell_val_same X c _

theorem fillTagStep_cols (an : List String) (A : Rec) (mc : String) :
    (fillTagStep an A mc).cols = A.cols := by
  unfold fillTagStep
  split
  · split <;> rfl
  · rfl

theorem fillTagStep_val_ne (an : List String) (A : Rec) (mc d : String) (h : d ≠ mc) :
    (fillTagStep an A mc).val d = A.val d := by
  unfold fillTagStep
  split
  · split
    · exact setCell_val_ne A mc _ d h
    · rfl
  · rfl

theorem fillTagStep_self_of_not (an : List String) (A : Rec) (mc : String)
    (h : ¬((pyReplace mc "_missing_code" "") ∈ A.cols
        ∧ A.val (pyReplace mc "_missing_code" "") = Val.na)) :
    fillTagStep an A mc = A := by
  unfold fillTagStep
  split
  · split
    · exact absurd ⟨‹_›, ‹_›⟩ h
    · rfl
  · rfl

theorem fillTagStep_val_self_of (an : List String) (A : Rec) (mc : String)
    (hmem : (pyReplace mc "_missing_code" "") ∈ A.cols)
    (hna : A.val (pyReplace mc "_missing_code" "") = Val.na) :
    (fillTagStep an A mc).val mc =
      Val.num (if (pyReplace mc "_missing_code" "") ∈ an then 2 else 1) := by
  unfold fillTagStep
  rw [if_pos hmem, if_pos hna, setCell_val_same]

theorem foldl_fillTagStep_cols (an : List String) (l : List String) (X : Rec) :
    (l.foldl (fillTagStep an) X).cols = X.cols := by
  induction l generalizing X with
  | nil => rfl
  | cons a rest ih => rw [List.foldl_cons, ih, fillTagStep_cols]

theorem foldl_fillTagStep_val_not_mem (an : List String) (l : List String) (X : Rec)
    (d : String) (hd : d ∉ l) : (l.foldl (fillTagStep an) X).val d = X.val d := by
  induction l generalizing X with
  | nil => rfl
  | cons a rest ih =>
      rw [List.foldl_cons, ih _ (fun h => hd (List.mem_cons_of_mem a h)),
        fillTagStep_val_ne an X a d (fun h => hd (h ▸ List.mem_cons_self a rest))]

theorem foldl_fillTagStep_val_mem (an : List String) (l : List String) (X : Rec) (c : String)
    (hc : c ∈ l) (hsuf : ∀ a ∈ l, strEndsWith a "_missing_code" = true)
    (hb : strEndsWith (pyReplace c "_missing_code" "") "_missing_code" = false) :
    (l.foldl (fillTagStep an) X).val c =
      if (pyReplace c "_missing_code" "") ∈ X.cols
          ∧ X.val (pyReplace c "_missing_code" "") = Val.na then
        Val.num (if (pyReplace c "_missing_code" "") ∈ an then 2 else 1)
      else X.val c := by
  induction l generalizing X with
  | nil => cases hc
  | cons a rest ih =>
      have ha : strEndsWith a "_missing_code" = true := hsuf a (List.mem_cons_self a rest)
      have hane : a ≠ pyReplace c "_missing_code" "" := by
        intro h
        rw [h, hb] at ha
        simp at ha
      rw [List.foldl_cons]
      by_cases hm : c ∈ rest
      · rw [ih (fillTagStep an X a) hm (fun b hbm => hsuf b (List.mem_cons_of_mem a hbm)),
          fillTagStep_cols, fillTagStep_val_ne an X a _ (Ne.symm hane)]
        by_cases hcond : (pyReplace c "_missing_code" "") ∈ X.cols
            ∧ X.val (pyReplace c "_missing_code" "") = Val.na
        · rw [if_pos hcond, if_pos hcond]
        · rw [if_neg hcond, if_neg hcond]
          by_cases hac : c = a
          · subst hac
            rw [fillTagStep_self_of_not an X c hcond]
          · exact fillTagStep_val_ne an X a c hac
      · have hca : c = a := by
          rcases List.mem_cons.mp hc with h | h
          · exact h
          · exact absurd h hm
        subst hca
        rw [foldl_fillTagStep_val_not_mem an rest _ c hm]
        by_cases hcond : (pyReplace c "_missing_code" "") ∈ X.cols
            ∧ X.val (pyReplace c "_missing_code" "") = Val.na
        · rw [if_pos hcond]
          exact fillTagStep_val_self_of an X c hcond.1 hcond.2
        · rw [if_neg hcond, fillTagStep_self_of_not an X c hcond]

/-! ### Missingness Encoder (claims C1 and C10) -/

theorem foldl_fillTagStep_val_range (an : List String) (l : List String) (X : Rec)
    (mc : String)
    (h : X.val mc = Val.num 0 ∨ X.val mc = Val.num 1 ∨ X.val mc = Val.num 2) :
    (l.foldl (fillTagStep an) X).val mc = Val.num 0 ∨
      (l.foldl (fillTagStep an) X).val mc = Val.num 1 ∨
      (l.foldl (fillTagStep an) X).val mc = Val.num 2 := by
  induction l generalizing X with
  | nil => exact h
  | cons a rest ih =>
      rw [List.foldl_cons]
      refine ih (fillTagStep an X a) ?_
      by_cases hac : mc = a
      · subst hac
        unfold fillTagStep
        split
        · split
          · rw [setCell_val_same]
            by_cases han : (pyReplace mc "_missing_code" "") ∈ an
            · rw [if_pos han]
              right; right; rfl
            · rw [if_neg han]
              right; left; rfl
          · exact h
        · exact h
      · rw [fillTagStep_val_ne an X a mc hac]
        exact h

theorem foldl_fillTagStep_val_base_absent (an : List String) (l : List String) (X : Rec)
    (mc : String) (hb2 : (pyReplace mc "_missing_code" "") ∉ X.cols)
    (h0 : X.val mc = Val.num 0) :
    (l.foldl (fillTagStep an) X).val mc = Val.num 0 := by
  induction l generalizing X with
  | nil => exact h0
  | cons a rest ih =>
      rw [List.foldl_cons]
      refine ih (fillTagStep an X a) ?_ ?_
      · rw [fillTagStep_cols]
        exact hb2
      · by_cases hac : mc = a
        · subst hac
          unfold fillTagStep
          rw [if_neg hb2]
          exact h0
        · rw [fillTagStep_val_ne an X a mc hac]
          exact h0

/-- C1: for every Record and every column `mc` ending in the missingness
suffix `"_missing_code"` whose base feature (the name with the suffix removed,
itself an ordinary feature, i.e. not an indicator) is a column, after
`fill_missing_code_like_R` the indicator is `0` iff the base value is known,
`2` iff it is missing and the base feature is in the analysis set, and `1` iff
it is missing and the base feature is not in the analysis set. -/
theorem fill_missing_indicator_iff (X : Rec) (analysis_cols_set : List String) (mc : String)
    (hmc : mc ∈ X.cols) (hsuf : strEndsWith mc "_missing_code" = true)
    (hbase : (pyReplace mc "_missing_code" "") ∈ X.cols)
    (hb : strEndsWith (pyReplace mc "_missing_code" "") "_missing_code" = false) :
    ((fill_missing_code_like_R X analysis_cols_set).val mc = Val.num 0 ↔
      X.val (pyReplace mc "_missing_code" "") ≠ Val.na) ∧
    ((fill_missing_code_like_R X analysis_cols_set).val mc = Val.num 2 ↔
      X.val (pyReplace mc "_missing_code" "") = Val.na
        ∧ (pyReplace mc "_missing_code" "") ∈ analysis_cols_set) ∧
    ((fill_missing_code_like_R X analysis_cols_set).val mc = Val.num 1 ↔
      X.val (pyReplace mc "_missing_code" "") = Val.na
        ∧ (pyReplace mc "_missing_code" "") ∉ analysis_cols_set) := by
  have hmem : mc ∈ X.cols.filter (fun c => strEndsWith c "_missing_code") :=
    List.mem_filter.mpr ⟨hmc, hsuf⟩
  have hnil : ¬(X.cols.filter (fun c => strEndsWith c "_missing_code") = []) := by
    intro h
    rw [h] at hmem
    cases hmem
  have hsufall : ∀ a ∈ X.cols.filter (fun c => strEndsWith c "_missing_code"),
      strEndsWith a "_missing_code" = true :=
    fun a hma => (List.mem_filter.mp hma).2
  have hbnotmem :
      (pyReplace mc "_missing_code" "") ∉ X.cols.filter (fun c => strEndsWith c "_missing_code") := by
    intro h
    have h2 := (List.mem_filter.mp h).2
    rw [hb] at h2
    exact Bool.noConfusion h2
  unfold fill_missing_code_like_R
  rw [if_neg hnil,
    foldl_fillTagStep_val_mem analysis_cols_set _ _ mc hmem hsufall hb,
    foldl_fillZeroStep_cols,
    foldl_fillZeroStep_val_not_mem _ _ _ hbnotmem,
    foldl_fillZeroStep_val_mem _ _ mc hmem]
  by_cases hna : X.val (pyReplace mc "_missing_code" "") = Val.na
  · rw [if_pos ⟨hbase, hna⟩]
    by_cases han : (pyReplace mc "_missing_code" "") ∈ analysis_cols_set
    · rw [if_pos han]
      refine ⟨?_, ?_, ?_⟩ <;> simp [hna, han]
    · rw [if_neg han]
      refine ⟨?_, ?_, ?_⟩ <;> simp [hna, han]
  · rw [if_neg (fun h => hna h.2)]
    refine ⟨?_, ?_, ?_⟩ <;> simp [hna]

/-- Concrete check of C1: an unanswered analysis feature gets indicator 2, an
unanswered non-analysis feature gets indicator 1. -/
def wRecC1 : Rec :=
  ⟨["ELISA_pos", "ELISA_pos_missing_code", "Boiterie", "Boiterie_missing_code", "Age"],
   fun c => if c = "Age" then Val.num 7 else Val.na⟩

theorem fill_missing_indicator_iff_witness :
    (fill_missing_code_like_R wRecC1 ["ELISA_pos"]).val "ELISA_pos_missing_code" = Val.num 2 ∧
    (fill_missing_code_like_R wRecC1 ["ELISA_pos"]).val "Boiterie_missing_code" = Val.num 1 :=
  ⟨((fill_missing_indicator_iff wRecC1 ["ELISA_pos"] "ELISA_pos_missing_code"
      (by decide) (by decide) (by decide) (by decide)).2.1).mpr (by decide),
   ((fill_missing_indicator_iff wRecC1 ["ELISA_pos"] "Boiterie_missing_code"
      (by decide) (by decide) (by decide) (by decide)).2.2).mpr (by decide)⟩

/-- C10: after `fill_missing_code_like_R` runs on a Record containing a
missingness-indicator column, that indicator holds a value in {0, 1, 2} (never
the missing marker), and an indicator whose base column is absent from the
Record stays at the default 0. -/
theorem fill_missing_indicator_range (X : Rec) (analysis_cols_set : List String)
    (mc : String) (hmc : mc ∈ X.cols) (hsuf : strEndsWith mc "_missing_code" = true) :
    ((fill_missing_code_like_R X analysis_cols_set).val mc = Val.num 0 ∨
      (fill_missing_code_like_R X analysis_cols_set).val mc = Val.num 1 ∨
      (fill_missing_code_like_R X analysis_cols_set).val mc = Val.num 2) ∧
    ((pyReplace mc "_missing_code" "") ∉ X.cols →
      (fill_missing_code_like_R X analysis_cols_set).val mc = Val.num 0) := by
  have hmem : mc ∈ X.cols.filter (fun c => strEndsWith c "_missing_code") :=
    List.mem_filter.mpr ⟨hmc, hsuf⟩
  have hnil : ¬(X.cols.filter (fun c => strEndsWith c "_missing_code") = []) := by
    intro h
    rw [h] at hmem
    cases hmem
  unfold fill_missing_code_like_R
  rw [if_neg hnil]
  constructor
  · refine foldl_fillTagStep_val_range analysis_cols_set _ _ mc ?_
    left
    exact foldl_fillZeroStep_val_mem _ _ mc hmem
  · intro habs
    refine foldl_fillTagStep_val_base_absent analysis_cols_set _ _ mc ?_ ?_
    · rw [foldl_fillZeroStep_cols]
      exact habs
    · exact foldl_fillZeroStep_val_mem _ _ mc hmem

/-- Concrete check of C10: an indicator whose base feature is not a column of
the Record is left at 0. -/
def wRecC10 : Rec :=
  ⟨["A", "B_missing_code"], fun _ => Val.na⟩

theorem fill_missing_indicator_range_witness :
    (fill_missing_code_like_R wRecC10 []).val "B_missing_code" = Val.num 0 :=
  (fill_missing_indicator_range wRecC10 [] "B_missing_code"
    (by decide) (by decide)).2 (by decide)

/-! ### Risk Category Mapper (claims C2 and C8) -/

/-- C2: `cat_from_p_like_R` is a pure total function with inclusive-low
thresholds: `p < 0.25` yields the none/insufficient category, `0.25 ≤ p < 0.50`
possible, `0.50 ≤ p < 0.75` probable, `0.75 ≤ p` certain; in particular
`p = 0.25` falls in possible, not none. -/
theorem cat_from_p_thresholds (p : ℚ) :
    (p < 0.25 → cat_from_p_like_R p = "Pas de Lyme ou informations insuffisantes") ∧
    (0.25 ≤ p → p < 0.50 → cat_from_p_like_R p = "Lyme possible") ∧
    (0.50 ≤ p → p < 0.75 → cat_from_p_like_R p = "Lyme probable") ∧
    (0.75 ≤ p → cat_from_p_like_R p = "Lyme sûr") ∧
    cat_from_p_like_R 0.25 = "Lyme possible" := by
  unfold cat_from_p_like_R
  refine ⟨?_, ?_, ?_, ?_, ?_⟩
  · intro h
    rw [if_pos h]
  · intro h1 h2
    rw [if_neg (not_lt.mpr h1), if_pos h2]
  · intro h1 h2
    rw [if_neg (by linarith), if_neg (not_lt.mpr h1), if_pos h2]
  · intro h1
    rw [if_neg (by linarith), if_neg (by linarith), if_neg (not_lt.mpr h1)]
  · norm_num

theorem cat_from_p_thresholds_witness :
    (0.25 : ℚ) ≤ 0.25 ∧ (0.25 : ℚ) < 0.50 ∧ cat_from_p_like_R 0.25 = "Lyme possible" :=
  ⟨by norm_num, by norm_num, (cat_from_p_thresholds 0.25).2.1 (by norm_num) (by norm_num)⟩

/-- C8 counterexample: `cat_from_p_like_R` does not reject out-of-range input —
`p = -1 < 0` and `p = 2 > 1` are silently mapped to ordinary categories. -/
theorem cat_from_p_no_reject_counterexample :
    (-1 : ℚ) < 0 ∧ cat_from_p_like_R (-1) = "Pas de Lyme ou informations insuffisantes" ∧
    (1 : ℚ) < 2 ∧ cat_from_p_like_R 2 = "Lyme sûr" := by
  refine ⟨by norm_num, ?_, by norm_num, ?_⟩ <;> norm_num [cat_from_p_like_R]

/-- C8 (amended): `cat_from_p_like_R` is total and does not reject invalid
input: every `p < 0` is silently mapped to the none/insufficient category and
every `p > 1` to the certain category, by the same thresholds (NaN is not
representable in the rational model of probabilities). -/
theorem cat_from_p_total_on_invalid (p : ℚ) :
    (p < 0 → cat_from_p_like_R p = "Pas de Lyme ou informations insuffisantes") ∧
    (1 < p → cat_from_p_like_R p = "Lyme sûr") := by
  unfold cat_from_p_like_R
  constructor
  · intro h
    rw [if_pos (by linarith)]
  · intro h
    rw [if_neg (by linarith), if_neg (by linarith), if_neg (by linarith)]

theorem cat_from_p_total_on_invalid_witness :
    ((-1 : ℚ) < 0 ∧ cat_from_p_like_R (-1) = "Pas de Lyme ou informations insuffisantes") ∧
    ((1 : ℚ) < 2 ∧ cat_from_p_like_R 2 = "Lyme sûr") :=
  ⟨⟨by norm_num, (cat_from_p_total_on_invalid (-1)).1 (by norm_num)⟩,
   ⟨by norm_num, (cat_from_p_total_on_invalid 2).2 (by norm_num)⟩⟩

/-! ### Schema Coercion (claims C3, C4, C9) -/

theorem normNum_str (s : String) :
    normNum (Val.str s) =
      if pyLower (pyStrip s) ∈ yesTokens then Val.num 1
      else if pyLower (pyStrip s) ∈ noTokens then Val.num 0
      else
        match parseNumeric s with
        | some q => Val.num q
        | none => Val.na := by
  show to_numeric_coerce (yn_to_num_if_needed (Val.str s) true) = _
  simp only [yn_to_num_if_needed]
  split_ifs <;> rfl

theorem normNum_shape (v : Val) :
    normNum v = Val.na ∨ ∃ q, normNum v = Val.num q := by
  cases v with
  | na => exact Or.inl rfl
  | num q => exact Or.inr ⟨q, rfl⟩
  | str s =>
      rw [normNum_str]
      split_ifs
      · exact Or.inr ⟨1, rfl⟩
      · exact Or.inr ⟨0, rfl⟩
      · cases hp : parseNumeric s with
        | none => exact Or.inl rfl
        | some q => exact Or.inr ⟨q, rfl⟩

theorem normNum_idem (v : Val) : normNum (normNum v) = normNum v := by
  rcases normNum_shape v with h | ⟨q, h⟩ <;> rw [h] <;> rfl

theorem coerceCatVal_isStr (v : Val) : ∃ s, coerceCatVal v = Val.str s := by
  cases v <;> exact ⟨_, rfl⟩

theorem coerceCatVal_idem (v : Val) : coerceCatVal (coerceCatVal v) = coerceCatVal v := by
  obtain ⟨s, h⟩ := coerceCatVal_isStr v
  rw [h]
  rfl

/-- C3: after `coerce_like_train_python` every categorical column of the
Record holds a string token — a missing cell becomes the sentinel
`"__MISSING__"`, never the missing marker — and every non-categorical schema
column holds a finite number or the unknown marker; no cell of a schema
feature holds anything outside {string token, finite number, unknown}. -/
theorem coerce_cell_types (X : Rec) (feature_cols cat_cols : List String)
    (factor_levels : List (String × List String)) (c : String) (hcol : c ∈ X.cols) :
    (c ∈ cat_cols →
      (∃ s, (coerce_like_train_python X feature_cols cat_cols factor_levels).val c = Val.str s)
      ∧ (X.val c = Val.na →
          (coerce_like_train_python X feature_cols cat_cols factor_levels).val c
            = Val.str "__MISSING__")) ∧
    (c ∈ feature_cols → c ∉ cat_cols →
      ((∃ q, (coerce_like_train_python X feature_cols cat_cols factor_levels).val c = Val.num q)
        ∨ (coerce_like_train_python X feature_cols cat_cols factor_levels).val c = Val.na)) := by
  unfold coerce_like_train_python
  constructor
  · intro hcat
    have h1 : (cat_cols.foldl (coerceStep coerceCatVal) X).val c = coerceCatVal (X.val c) :=
      foldl_coerceStep_val_mem coerceCatVal coerceCatVal_idem cat_cols X c hcat hcol
    have hnotnum : c ∉ numColsOf feature_cols cat_cols := by
      intro h
      have h2 := (List.mem_filter.mp h).2
      simp at h2
      exact h2 hcat
    rw [foldl_coerceStep_val_not_mem normNum _ _ c hnotnum, h1]
    refine ⟨coerceCatVal_isStr (X.val c), ?_⟩
    intro hna
    rw [hna]
    rfl
  · intro hfc hnc
    have hmem : c ∈ numColsOf feature_cols cat_cols := by
      refine List.mem_filter.mpr ⟨hfc, ?_⟩
      simp [hnc]
    have hcol1 : c ∈ (cat_cols.foldl (coerceStep coerceCatVal) X).cols := by
      rw [foldl_coerceStep_cols]
      exact hcol
    rw [foldl_coerceStep_val_mem normNum normNum_idem _ _ c hmem hcol1,
      foldl_coerceStep_val_not_mem coerceCatVal _ _ c hnc]
    rcases normNum_shape (X.val c) with h | ⟨q, h⟩
    · exact Or.inr h
    · exact Or.inl ⟨q, h⟩

/-- Concrete check of C3: a missing categorical cell becomes the sentinel and a
numeric cell holding an affirmative token becomes a number. -/
def wRecC3 : Rec :=
  ⟨["S", "N"], fun c => if c = "S" then Val.na else Val.str "oui"⟩

theorem coerce_cell_types_witness :
    (coerce_like_train_python wRecC3 ["S", "N"] ["S"] []).val "S" = Val.str "__MISSING__" ∧
    ((∃ q, (coerce_like_train_python wRecC3 ["S", "N"] ["S"] []).val "N" = Val.num q)
      ∨ (coerce_like_train_python wRecC3 ["S", "N"] ["S"] []).val "N" = Val.na) :=
  ⟨((coerce_cell_types wRecC3 ["S", "N"] ["S"] [] "S" (by decide)).1 (by decide)).2 (by decide),
   (coerce_cell_types wRecC3 ["S", "N"] ["S"] [] "N" (by decide)).2 (by decide) (by decide)⟩

/-- Modelled from the spec: the accent stripping implicit in the spec's
"case/accent-insensitive" wording, over accented variants of the letters
occurring in the affirmative/negative tokens. -/
def specDeaccent (s : String) : String :=
  ⟨s.data.map (fun c =>
    if c = 'ï' ∨ c = 'î' ∨ c = 'ì' ∨ c = 'í' then 'i'
    else if c = 'ù' ∨ c = 'û' ∨ c = 'ú' then 'u'
    else if c = 'é' ∨ c = 'è' ∨ c = 'ê' ∨ c = 'ë' then 'e'
    else c)⟩

/-- C4 counterexample: the text→number normalization is not accent-insensitive.
`"Ouï"` equals `"Oui"` up to accents; `"Oui"` maps to 1 but `"Ouï"` degrades to
the unknown marker. -/
theorem yn_norm_not_accent_insensitive :
    specDeaccent "Ouï" = "Oui" ∧
    normNum (Val.str "Oui") = Val.num 1 ∧
    normNum (Val.str "Ouï") = Val.na :=
  ⟨by decide, by decide, by decide⟩

/-- C4 (amended): the text→number normalization is total, case-insensitive and
trimmed (though not accent-insensitive): any spelling whose stripped lowercase
form is one of the affirmative tokens `"oui"/"yes"/"vrai"/"1"` maps to 1 and of
the negative tokens `"non"/"no"/"faux"/"0"` to 0; any other string is parsed as
a number, and an unparsable value degrades to the unknown marker rather than
raising or becoming zero.  The normalization applies only to non-categorical
features: `yn_to_num_if_needed` is the identity on non-numeric columns and the
numeric pass of `coerce_like_train_python` excludes every categorical column. -/
theorem yn_norm_spec (s : String) (v : Val) (feature_cols cat_cols : List String)
    (c : String) :
    (pyLower (pyStrip s) ∈ ["oui", "yes", "vrai", "1"] → normNum (Val.str s) = Val.num 1) ∧
    (pyLower (pyStrip s) ∈ ["non", "no", "faux", "0"] → normNum (Val.str s) = Val.num 0) ∧
    (pyLower (pyStrip s) ∉ yesTokens → pyLower (pyStrip s) ∉ noTokens →
      normNum (Val.str s) =
        (match parseNumeric s with
          | some q => Val.num q
          | none => Val.na)) ∧
    yn_to_num_if_needed v false = v ∧
    (c ∈ cat_cols → c ∉ numColsOf feature_cols cat_cols) := by
  refine ⟨?_, ?_, ?_, ?_, ?_⟩
  · intro h
    have hy : pyLower (pyStrip s) ∈ yesTokens := by
      simp only [yesTokens, List.mem_cons, List.not_mem_nil, or_false] at *
      tauto
    rw [normNum_str, if_pos hy]
  · intro h
    have hn : pyLower (pyStrip s) ∈ noTokens := by
      simp only [noTokens, List.mem_cons, List.not_mem_nil, or_false] at *
      tauto
    have hy : pyLower (pyStrip s) ∉ yesTokens := by
      simp only [List.mem_cons, List.not_mem_nil, or_false] at h
      rcases h with h | h | h | h <;> rw [h] <;> decide
    rw [normNum_str, if_neg hy, if_pos hn]
  · intro hy hn
    rw [normNum_str, if_neg hy, if_neg hn]
  · cases v <;> rfl
  · intro hcc hmem
    have h2 := (List.mem_filter.mp hmem).2
    simp at h2
    exact h2 hcc

theorem yn_norm_spec_witness :
    (normNum (Val.str " Oui ") = Val.num 1) ∧
    (normNum (Val.str "NON") = Val.num 0) ∧
    (normNum (Val.str "3.5") = Val.num (7 / 2)) ∧
    (normNum (Val.str "banana") = Val.na) ∧
    yn_to_num_if_needed (Val.str "Oui") false = Val.str "Oui" := by
  refine ⟨?_, ?_, ?_, ?_, ?_⟩
  · exact (yn_norm_spec " Oui " Val.na [] [] "x").1 (by decide)
  · exact (yn_norm_spec "NON" Val.na [] [] "x").2.1 (by decide)
  · rw [(yn_norm_spec "3.5" Val.na [] [] "x").2.2.1 (by decide) (by decide)]
    have hp : parseNumeric "3.5" = some ((3 : ℚ) + (5 : ℚ) / (10 : ℚ) ^ 1) := rfl
    rw [hp]
    simp only [Val.num.injEq]
    norm_num
  · rw [(yn_norm_spec "banana" Val.na [] [] "x").2.2.1 (by decide) (by decide)]
    decide
  · exact (yn_norm_spec "x" (Val.str "Oui") [] [] "x").2.2.2.1

/-- C9: beyond the spec's listed tokens, `yn_to_num_if_needed` also accepts the
abbreviations and boolean words `"y"`/`"true"` (→ 1.0) and `"n"`/`"false"`
(→ 0.0) on numeric columns, case-insensitively after trimming. -/
theorem yn_extra_tokens (s : String) :
    (pyLower (pyStrip s) ∈ ["y", "true"] → yn_to_num_if_needed (Val.str s) true = Val.num 1) ∧
    (pyLower (pyStrip s) ∈ ["n", "false"] → yn_to_num_if_needed (Val.str s) true = Val.num 0) := by
  constructor
  · intro h
    have hy : pyLower (pyStrip s) ∈ yesTokens := by
      simp only [yesTokens, List.mem_cons, List.not_mem_nil, or_false] at *
      tauto
    simp [yn_to_num_if_needed, hy]
  · intro h
    have hn : pyLower (pyStrip s) ∈ noTokens := by
      simp only [noTokens, List.mem_cons, List.not_mem_nil, or_false] at *
      tauto
    have hy : pyLower (pyStrip s) ∉ yesTokens := by
      simp only [List.mem_cons, List.not_mem_nil, or_false] at h
      rcases h with h | h <;> rw [h] <;> decide
    simp [yn_to_num_if_needed, hy, hn]

theorem yn_extra_tokens_witness :
    yn_to_num_if_needed (Val.str " TRUE ") true = Val.num 1 ∧
    yn_to_num_if_needed (Val.str "N") true = Val.num 0 :=
  ⟨(yn_extra_tokens " TRUE ").1 (by decide), (yn_extra_tokens "N").2 (by decide)⟩

/-! ### Geocoding Resolver (claim C5) -/

/-- C5 counterexample: an HTTP 503 from the first provider (BAN) is not
returned as a provider error — the resolver silently advances to Nominatim.
With candidates on Nominatim the result is `Found`; with an empty Nominatim
candidate list the result collapses to exactly the `None` that a
both-providers-empty lookup produces, so the first provider's HTTP error is not
distinguishable from not-found. -/
theorem geocode_first_provider_error_counterexample :
    geocode_address (HttpResp.http 503 "Service Unavailable" [])
        (HttpResp.http 200 "" [⟨48, 2, "Paris"⟩]) "1 rue X"
      = GeoResult.found 48 2 "Paris" "Nominatim" ∧
    geocode_address (HttpResp.http 503 "Service Unavailable" [])
        (HttpResp.http 200 "" []) "1 rue X" = GeoResult.none_ ∧
    geocode_address (HttpResp.http 200 "" []) (HttpResp.http 200 "" []) "1 rue X"
      = GeoResult.none_ :=
  ⟨rfl, rfl, rfl⟩

/-- C5 (amended): only the last provider's HTTP errors surface.  Whenever BAN
does not produce a 200-with-candidates match (in particular on a non-2xx BAN
response, which silently falls through), a non-200 response from Nominatim is
returned immediately as the provider-error outcome carrying the status and
body, which is distinguishable from the `None` of an all-empty lookup. -/
theorem geocode_last_provider_error (ban : HttpResp) (s : ℕ) (body : String)
    (cs : List Cand) (address : String)
    (haddr : ¬(pyStrip address = ""))
    (hban : ∀ b c rest, ban ≠ HttpResp.http 200 b (c :: rest))
    (hs : s ≠ 200) :
    geocode_address ban (HttpResp.http s body cs) address
      = GeoResult.providerError s (pyTake body 300) "Nominatim" ∧
    geocode_address ban (HttpResp.http s body cs) address ≠ GeoResult.none_ := by
  have hnom : nominatimResult (HttpResp.http s body cs)
      = GeoResult.providerError s (pyTake body 300) "Nominatim" := by
    simp only [nominatimResult]
    rw [if_neg hs]
  have hg : geocode_address ban (HttpResp.http s body cs) address
      = GeoResult.providerError s (pyTake body 300) "Nominatim" := by
    cases ban with
    | exn =>
        simp only [geocode_address]
        rw [if_neg haddr]
        exact hnom
    | http s2 b2 cs2 =>
        cases cs2 with
        | nil =>
            simp only [geocode_address]
            rw [if_neg haddr]
            by_cases h2 : s2 = 200
            · rw [if_pos h2]
              exact hnom
            · rw [if_neg h2]
              exact hnom
        | cons c rest =>
            simp only [geocode_address]
            rw [if_neg haddr]
            by_cases h2 : s2 = 200
            · subst h2
              exact absurd rfl (hban b2 c rest)
            · rw [if_neg h2]
              exact hnom
  exact ⟨hg, by rw [hg]; exact fun h => GeoResult.noConfusion h⟩

theorem geocode_last_provider_error_witness :
    geocode_address HttpResp.exn (HttpResp.http 503 "down" []) "1 rue de la Paix"
      = GeoResult.providerError 503 (pyTake "down" 300) "Nominatim" ∧
    geocode_address HttpResp.exn (HttpResp.http 503 "down" []) "1 rue de la Paix"
      ≠ GeoResult.none_ :=
  geocode_last_provider_error HttpResp.exn 503 "down" [] "1 rue de la Paix"
    (by decide) (fun b c rest h => HttpResp.noConfusion h) (by decide)

/-! ### Risk Raster Sampler (claim C6) -/

/-- C6: for a loaded raster, whenever the reprojected point lies outside the
bounding extent, or the computed row/column is outside the pixel grid, or the
sampled pixel value is not one of the categories {1, 2, 3}, the sampler
returns the lowest-risk fallback label (reconciled against the registry
levels), never `None`; and it is deterministic — the embedding is a pure
function, so equal inputs give equal labels. -/
theorem risk_raster_fallback (ds : Raster) (proj : ℚ → ℚ → ℚ × ℚ)
    (lat lon : ℚ) (factor_levels : List (String × List String))
    (h :
      ((proj lon lat).1 < ds.left ∨ (proj lon lat).1 > ds.right
        ∨ (proj lon lat).2 < ds.bottom ∨ (proj lon lat).2 > ds.top)
      ∨ ((ds.rowcolF (proj lon lat).1 (proj lon lat).2).1 < 0
        ∨ (ds.rowcolF (proj lon lat).1 (proj lon lat).2).2 < 0
        ∨ (ds.rowcolF (proj lon lat).1 (proj lon lat).2).1 ≥ (ds.height : ℤ)
        ∨ (ds.rowcolF (proj lon lat).1 (proj lon lat).2).2 ≥ (ds.width : ℤ))
      ∨ (ds.pix (ds.rowcolF (proj lon lat).1 (proj lon lat).2).1.toNat
            (ds.rowcolF (proj lon lat).1 (proj lon lat).2).2.toNat ≠ 1
        ∧ ds.pix (ds.rowcolF (proj lon lat).1 (proj lon lat).2).1.toNat
            (ds.rowcolF (proj lon lat).1 (proj lon lat).2).2.toNat ≠ 2
        ∧ ds.pix (ds.rowcolF (proj lon lat).1 (proj lon lat).2).1.toNat
            (ds.rowcolF (proj lon lat).1 (proj lon lat).2).2.toNat ≠ 3)) :
    risk_class_from_geo (some ds) proj lat lon factor_levels
      = some (riskFallbackLabel factor_levels) ∧
    risk_class_from_geo (some ds) proj lat lon factor_levels ≠ none ∧
    risk_class_from_geo (some ds) proj lat lon factor_levels
      = risk_class_from_geo (some ds) proj lat lon factor_levels := by
  have hraw : rawRiskLabel ds (proj lon lat).1 (proj lon lat).2 = "faible ou méconnu" := by
    unfold rawRiskLabel
    split_ifs with h1 h2 h3 h4
    · rfl
    · rfl
    · rcases h with h | h | h
      · exact absurd h h1
      · exact absurd h h2
      · exact absurd h3 h.2.1
    · rcases h with h | h | h
      · exact absurd h h1
      · exact absurd h h2
      · exact absurd h4 h.2.2
    · rfl
  have hmain : risk_class_from_geo (some ds) proj lat lon factor_levels
      = some (riskFallbackLabel factor_levels) := by
    simp only [risk_class_from_geo, riskFallbackLabel]
    rw [hraw]
  exact ⟨hmain, by rw [hmain]; exact fun h => Option.noConfusion h, rfl⟩

/-- Concrete raster for the C6 witness: extent `[0,10] × [0,10]`, a 5×5 grid,
every pixel of category 1. -/
def wRaster : Raster :=
  ⟨0, 10, 0, 10, 5, 5, fun _ _ => (0, 0), fun _ _ => 1⟩

theorem risk_raster_fallback_witness :
    risk_class_from_geo (some wRaster) (fun lon lat => (lon, lat)) 50 100 []
      = some (riskFallbackLabel []) ∧
    risk_class_from_geo (some wRaster) (fun lon lat => (lon, lat)) 50 100 [] ≠ none :=
  ⟨(risk_raster_fallback wRaster (fun lon lat => (lon, lat)) 50 100 []
      (Or.inl (Or.inr (Or.inl (by norm_num [wRaster]))))).1,
   (risk_raster_fallback wRaster (fun lon lat => (lon, lat)) 50 100 []
      (Or.inl (Or.inr (Or.inl (by norm_num [wRaster]))))).2.1⟩

/-! ### Feature Vector Builder (claim C7) -/

theorem lookupKV_nil (c : String) : lookupKV [] c = none :=
  rfl

theorem lookupKV_cons (p : String × Val) (rest : List (String × Val)) (c : String) :
    lookupKV (p :: rest) c = if p.1 = c then some p.2 else lookupKV rest c := by
  by_cases h : p.1 = c
  · rw [if_pos h]
    unfold lookupKV
    rw [List.find?_cons_of_pos _ (by simpa using h)]
    rfl
  · rw [if_neg h]
    unfold lookupKV
    rw [List.find?_cons_of_neg _ (by simpa using h)]

theorem lookupKV_mapSet (d : List (String × Val)) (k : String) (v : Val) (c : String) :
    lookupKV (d.map (fun p => if p.1 == k then (k, v) else p)) c
      = if c = k then (lookupKV d k).map (fun _ => v) else lookupKV d c := by
  induction d with
  | nil => by_cases h : c = k <;> simp [lookupKV, h]
  | cons p rest ih =>
      rw [List.map_cons]
      by_cases hp : p.1 = k
      · have hh : (if (p.1 == k) = true then (k, v) else p) = (k, v) := by
          rw [if_pos (by simpa using hp)]
        rw [hh, lookupKV_cons, lookupKV_cons, if_pos hp]
        by_cases hc : c = k
        · rw [if_pos hc, if_pos hc.symm]
          rfl
        · rw [if_neg hc, if_neg (fun h => hc h.symm), ih, if_neg hc, lookupKV_cons,
            if_neg (fun h => hc (hp ▸ h).symm)]
      · have hh : (if (p.1 == k) = true then (k, v) else p) = p := by
          rw [if_neg (by simpa using hp)]
        rw [hh]
        by_cases hc : c = k
        · rw [lookupKV_cons, if_neg (fun h => hp (hc ▸ h)), ih, if_pos hc, if_pos hc,
            lookupKV_cons, if_neg hp]
        · rw [lookupKV_cons, ih, if_neg hc, if_neg hc, lookupKV_cons]

theorem lookupKV_append_one_of_none (d : List (String × Val)) (k : String) (v : Val)
    (c : String) (h : lookupKV d c = none) :
    lookupKV (d ++ [(k, v)]) c = if k = c then some v else none := by
  induction d with
  | nil => rw [List.nil_append, lookupKV_cons, lookupKV_nil]
  | cons p rest ih =>
      rw [lookupKV_cons] at h
      rw [List.cons_append, lookupKV_cons]
      by_cases hp : p.1 = c
      · rw [if_pos hp] at h
        exact Option.noConfusion h
      · rw [if_neg hp] at h
        rw [if_neg hp, ih h]

theorem lookupKV_append_one_of_some (d : List (String × Val)) (k : String) (v : Val)
    (c : String) (w : Val) (h : lookupKV d c = some w) :
    lookupKV (d ++ [(k, v)]) c = some w := by
  induction d with
  | nil => exact Option.noConfusion h
  | cons p rest ih =>
      rw [lookupKV_cons] at h
      rw [List.cons_append, lookupKV_cons]
      by_cases hp : p.1 = c
      · rw [if_pos hp] at h
        rw [if_pos hp]
        exact h
      · rw [if_neg hp] at h
        rw [if_neg hp, ih h]

theorem lookupKV_dictSet (d : List (String × Val)) (k : String) (v : Val) (c : String) :
    lookupKV (dictSet d k v) c = if c = k then some v else lookupKV d c := by
  unfold dictSet
  split
  next hany =>
    rw [lookupKV_mapSet]
    by_cases hc : c = k
    · rw [if_pos hc, if_pos hc]
      obtain ⟨p, hp, hpk⟩ := List.any_eq_true.mp hany
      have hsome : (d.find? (fun p => p.1 == k)).isSome := by
        rw [List.find?_isSome]
        exact ⟨p, hp, hpk⟩
      obtain ⟨pr, hpr⟩ := Option.isSome_iff_exists.mp hsome
      have : lookupKV d k = some pr.2 := by
        unfold lookupKV
        rw [hpr]
        rfl
      rw [this]
      rfl
    · rw [if_neg hc, if_neg hc]
  next hany =>
    by_cases hc : c = k
    · have hnone : lookupKV d c = none := by
        unfold lookupKV
        rw [List.find?_eq_none.mpr]
        · rfl
        · intro x hx hbeq
          exact hany (List.any_eq_true.mpr ⟨x, hx, by rw [hc] at hbeq; exact hbeq⟩)
      rw [lookupKV_append_one_of_none d k v c hnone, if_pos hc, if_pos hc.symm]
    · rw [if_neg hc]
      cases hd : lookupKV d c with
      | none =>
          rw [lookupKV_append_one_of_none d k v c hd, if_neg (fun h => hc h.symm)]
      | some w =>
          rw [lookupKV_append_one_of_some d k v c w hd]

theorem lookupKV_put (fc : List String) (al : List (String × String))
    (d : List (String × Val)) (k : String) (v : Val) (c : String) :
    lookupKV (put fc al d k v) c
      = if resolveKey fc al k = some c then some v else lookupKV d c := by
  unfold put resolveKey
  by_cases hk : k ∈ fc
  · rw [if_pos hk, if_pos hk, lookupKV_dictSet]
    by_cases hc : c = k
    · rw [if_pos hc, if_pos (by rw [hc])]
    · rw [if_neg hc, if_neg (fun h => hc (Option.some.inj h).symm)]
  · rw [if_neg hk, if_neg hk]
    cases hal : aliasLookup al k with
    | none =>
        dsimp only
        rw [if_neg (fun h => Option.noConfusion h)]
    | some tgt =>
        dsimp only
        by_cases ht : tgt ∈ fc
        · rw [if_pos ht, if_pos ht, lookupKV_dictSet]
          by_cases hc : c = tgt
          · rw [if_pos hc, if_pos (by rw [hc])]
          · rw [if_neg hc, if_neg (fun h => hc (Option.some.inj h).symm)]
        · rw [if_neg ht, if_neg ht, if_neg (fun h => Option.noConfusion h)]

theorem lookupKV_buildInputs (fc : List String) (al : List (String × String))
    (entries : List (String × Val)) (c : String) :
    lookupKV (buildInputs fc al entries) c = lastHit fc al entries c := by
  unfold buildInputs lastHit
  suffices H : ∀ (es : List (String × Val)) (d : List (String × Val)),
      lookupKV (es.foldl (fun d kv => put fc al d kv.1 kv.2) d) c
        = es.foldl
            (fun acc kv => if resolveKey fc al kv.1 = some c then some kv.2 else acc)
            (lookupKV d c) by
    rw [H entries []]
    rfl
  intro es
  induction es with
  | nil => intro d; rfl
  | cons e rest ih =>
      intro d
      rw [List.foldl_cons, List.foldl_cons, ih, lookupKV_put]

theorem dictSet_keys_nodup (d : List (String × Val)) (k : String) (v : Val)
    (h : (d.map Prod.fst).Nodup) : ((dictSet d k v).map Prod.fst).Nodup := by
  unfold dictSet
  split
  next hany =>
    have hkeys : (d.map (fun p => if p.1 == k then (k, v) else p)).map Prod.fst
        = d.map Prod.fst := by
      rw [List.map_map]
      apply List.map_congr_left
      intro p _
      by_cases hpk : p.1 = k
      · simp [hpk]
      · simp [hpk]
    rw [hkeys]
    exact h
  next hany =>
    rw [List.map_append]
    refine List.Nodup.append h (List.nodup_singleton k) ?_
    intro a ha hb
    rw [List.map_singleton, List.mem_singleton] at hb
    subst hb
    obtain ⟨p, hp, hpk⟩ := List.mem_map.mp ha
    exact hany (List.any_eq_true.mpr ⟨p, hp, by simp [hpk]⟩)

theorem put_keys_nodup (fc : List String) (al : List (String × String))
    (d : List (String × Val)) (k : String) (v : Val)
    (h : (d.map Prod.fst).Nodup) : ((put fc al d k v).map Prod.fst).Nodup := by
  unfold put
  split
  · exact dictSet_keys_nodup d k v h
  · split
    · split
      · exact dictSet_keys_nodup d _ v h
      · exact h
    · exact h

theorem buildInputs_keys_nodup (fc : List String) (al : List (String × String))
    (entries : List (String × Val)) :
    ((buildInputs fc al entries).map Prod.fst).Nodup := by
  unfold buildInputs
  suffices H : ∀ (es : List (String × Val)) (d : List (String × Val)),
      (d.map Prod.fst).Nodup →
      ((es.foldl (fun d kv => put fc al d kv.1 kv.2) d).map Prod.fst).Nodup by
    exact H entries [] (by simp)
  intro es
  induction es with
  | nil => exact fun d hd => hd
  | cons e rest ih =>
      intro d hd
      rw [List.foldl_cons]
      exact ih _ (put_keys_nodup fc al d e.1 e.2 hd)

theorem applyStep_cols (A : Rec) (kv : String × Val) : (applyStep A kv).cols = A.cols := by
  unfold applyStep
  split <;> rfl

theorem applyStep_val_ne (A : Rec) (kv : String × Val) (c : String) (h : c ≠ kv.1) :
    (applyStep A kv).val c = A.val c := by
  unfold applyStep
  split
  · exact setCell_val_ne A kv.1 kv.2 c h
  · rfl

theorem apply_inputs_cols (X : Rec) (d : List (String × Val)) :
    (apply_inputs_to_template X d).cols = X.cols := by
  unfold apply_inputs_to_template
  induction d generalizing X with
  | nil => rfl
  | cons e rest ih => rw [List.foldl_cons, ih, applyStep_cols]

theorem apply_inputs_val (X : Rec) (d : List (String × Val)) (c : String)
    (hnd : (d.map Prod.fst).Nodup) :
    (apply_inputs_to_template X d).val c =
      (lookupKV d c).elim (X.val c) (fun v => if c ∈ X.cols then v else X.val c) := by
  unfold apply_inputs_to_template
  induction d generalizing X with
  | nil => rfl
  | cons e rest ih =>
      rw [List.map_cons, List.nodup_cons] at hnd
      rw [List.foldl_cons, ih _ hnd.2, lookupKV_cons]
      by_cases hc : e.1 = c
      · subst hc
        have hrest : lookupKV rest e.1 = none := by
          unfold lookupKV
          rw [List.find?_eq_none.mpr]
          · rfl
          · intro x hx hbeq
            exact hnd.1 ((eq_of_beq hbeq) ▸ List.mem_map_of_mem Prod.fst hx)
        rw [hrest, if_pos rfl, Option.elim_none, Option.elim_some]
        unfold applyStep
        by_cases hX : e.1 ∈ X.cols
        · rw [if_pos hX, if_pos hX, setCell_val_same]
        · rw [if_neg hX, if_neg hX]
      · rw [if_neg hc]
        cases hr : lookupKV rest c with
        | none =>
            rw [Option.elim_none, Option.elim_none]
            exact applyStep_val_ne X e c (fun h => hc h.symm)
        | some v =>
            rw [Option.elim_some, Option.elim_some, applyStep_cols,
              applyStep_val_ne X e c (fun h => hc h.symm)]

theorem buildRecord_val (fc : List String) (al : List (String × String))
    (entries : List (String × Val)) (c : String) :
    (buildRecord fc al entries).val c =
      (lastHit fc al entries c).elim Val.na (fun v => if c ∈ fc then v else Val.na) := by
  unfold buildRecord
  rw [apply_inputs_val _ _ c (buildInputs_keys_nodup fc al entries),
    lookupKV_buildInputs]
  rfl

theorem lastHit_some (fc : List String) (al : List (String × String))
    (entries : List (String × Val)) (c : String) (v : Val)
    (h : lastHit fc al entries c = some v) :
    ∃ kv ∈ entries, resolveKey fc al kv.1 = some c ∧ kv.2 = v := by
  unfold lastHit at h
  suffices H : ∀ (es : List (String × Val)) (acc : Option Val),
      es.foldl (fun acc kv => if resolveKey fc al kv.1 = some c then some kv.2 else acc) acc
          = some v →
      (∃ kv ∈ es, resolveKey fc al kv.1 = some c ∧ kv.2 = v) ∨ acc = some v by
    rcases H entries none h with h1 | h1
    · exact h1
    · exact Option.noConfusion h1
  intro es
  induction es with
  | nil => exact fun acc h => Or.inr h
  | cons e rest ih =>
      intro acc h
      rw [List.foldl_cons] at h
      rcases ih _ h with h1 | h1
      · obtain ⟨kv, hkv, hr⟩ := h1
        exact Or.inl ⟨kv, List.mem_cons_of_mem e hkv, hr⟩
      · by_cases hre : resolveKey fc al e.1 = some c
        · rw [if_pos hre] at h1
          exact Or.inl ⟨e, List.mem_cons_self e rest, hre, Option.some.inj h1⟩
        · rw [if_neg hre] at h1
          exact Or.inr h1

theorem lastHit_none_of (fc : List String) (al : List (String × String))
    (entries : List (String × Val)) (c : String)
    (h : ∀ kv ∈ entries, resolveKey fc al kv.1 ≠ some c) :
    lastHit fc al entries c = none := by
  unfold lastHit
  suffices H : ∀ (es : List (String × Val)) (acc : Option Val),
      (∀ kv ∈ es, resolveKey fc al kv.1 ≠ some c) →
      es.foldl (fun acc kv => if resolveKey fc al kv.1 = some c then some kv.2 else acc) acc
        = acc by
    exact H entries none h
  intro es
  induction es with
  | nil => exact fun acc _ => rfl
  | cons e rest ih =>
      intro acc hall
      rw [List.foldl_cons, if_neg (hall e (List.mem_cons_self e rest)),
        ih acc (fun kv hkv => hall kv (List.mem_cons_of_mem e hkv))]

theorem lastHit_filter (fc : List String) (al : List (String × String))
    (entries : List (String × Val)) (c : String) :
    lastHit fc al (entries.filter (fun kv => (resolveKey fc al kv.1).isSome)) c
      = lastHit fc al entries c := by
  unfold lastHit
  suffices H : ∀ (es : List (String × Val)) (acc : Option Val),
      (es.filter (fun kv => (resolveKey fc al kv.1).isSome)).foldl
          (fun acc kv => if resolveKey fc al kv.1 = some c then some kv.2 else acc) acc
        = es.foldl
            (fun acc kv => if resolveKey fc al kv.1 = some c then some kv.2 else acc) acc by
    exact H entries none
  intro es
  induction es with
  | nil => exact fun acc => rfl
  | cons e rest ih =>
      intro acc
      by_cases he : (resolveKey fc al e.1).isSome
      · rw [List.filter_cons_of_pos (by simpa using he), List.foldl_cons, List.foldl_cons, ih]
      · rw [List.filter_cons_of_neg (by simpa using he), List.foldl_cons,
          if_neg (fun hcon => he (by rw [hcon]; rfl)), ih]

/-- C7: the Feature Vector Builder yields a Record in which every schema
feature holds either a supplied answer (when some input key is the feature or
an accepted alias of it — the last such answer) or the unknown marker; input
keys that are neither schema features nor aliases are ignored without error
(dropping them changes no cell); and a feature on which no supplied key lands
stays unknown. -/
theorem build_record_spec (fc : List String) (al : List (String × String))
    (entries : List (String × Val)) (c : String) (hc : c ∈ fc) :
    ((buildRecord fc al entries).val c = Val.na ∨
      ∃ kv ∈ entries, resolveKey fc al kv.1 = some c
        ∧ (buildRecord fc al entries).val c = kv.2) ∧
    ((∀ kv ∈ entries, resolveKey fc al kv.1 ≠ some c) →
      (buildRecord fc al entries).val c = Val.na) ∧
    (∀ c2 : String,
      (buildRecord fc al (entries.filter (fun kv => (resolveKey fc al kv.1).isSome))).val c2
        = (buildRecord fc al entries).val c2) := by
  refine ⟨?_, ?_, ?_⟩
  · cases hl : lastHit fc al entries c with
    | none =>
        left
        rw [buildRecord_val, hl, Option.elim_none]
    | some v =>
        right
        obtain ⟨kv, hkv, hr, hv⟩ := lastHit_some fc al entries c v hl
        refine ⟨kv, hkv, hr, ?_⟩
        rw [buildRecord_val, hl, Option.elim_some, if_pos hc, hv]
  · intro hall
    rw [buildRecord_val, lastHit_none_of fc al entries c hall, Option.elim_none]
  · intro c2
    rw [buildRecord_val, buildRecord_val, lastHit_filter]

/-- Concrete schema and aliases for the C7 witness, mirroring the accent alias
of the source. -/
def wFc : List String := ["Exterieur_vegetalise", "Age_du_cheval"]

def wAl : List (String × String) := [("Exterieur_vegetalisé", "Exterieur_vegetalise")]

def wEntries : List (String × Val) :=
  [("Exterieur_vegetalisé", Val.str "oui"), ("junk", Val.num 5)]

theorem build_record_spec_witness :
    (buildRecord wFc wAl wEntries).val "Age_du_cheval" = Val.na ∧
    ((buildRecord wFc wAl wEntries).val "Exterieur_vegetalise" = Val.na ∨
      ∃ kv ∈ wEntries, resolveKey wFc wAl kv.1 = some "Exterieur_vegetalise"
        ∧ (buildRecord wFc wAl wEntries).val "Exterieur_vegetalise" = kv.2) :=
  ⟨(build_record_spec wFc wAl wEntries "Age_du_cheval" (by decide)).2.1 (by decide),
   (build_record_spec wFc wAl wEntries "Exterieur_vegetalise" (by decide)).1⟩

end Diag
